import Mathlib

/-!
Verification of the cloaked_req native request engine
(`src/native/cloaked_req_native/src/lib.rs` and its sibling modules).

The Rust source is shallowly embedded: Rust `&str`/`String` values become
`List Char` (`RStr`), raw byte slices become `List Nat`, fallible code
returns `Except NativeError _`, and code that can panic returns `PanicOr _`.
External capabilities (the `psl` crate's public-suffix lookup, the
`wreq`/`wreq_util` client builder and network transport, the `http` crate's
method grammar) are modelled as explicit parameters or small executable
predicates, exactly as the specification describes them as collaborators.
-/

/-- Rust string, modelled as its sequence of Unicode scalar values. -/
abbrev RStr := List Char

/-- Characters of a Lean string literal, used to write `RStr` constants. -/
def chars (s : String) : RStr := s.data

/-- Byte length of one scalar value in UTF-8 (mirrors `char::len_utf8`). -/
def charSize (c : Char) : Nat :=
  if c.toNat < 0x80 then 1
  else if c.toNat < 0x800 then 2
  else if c.toNat < 0x10000 then 3
  else 4

/-- `str::len`: the UTF-8 byte length of a Rust string. -/
def utf8LenS (s : RStr) : Nat := (s.map charSize).sum

/-- UTF-8 encoding of one scalar value (mirrors `char::encode_utf8`). -/
def encodeChar (c : Char) : List Nat :=
  let n := c.toNat
  if n < 0x80 then [n]
  else if n < 0x800 then [0xC0 + n / 0x40, 0x80 + n % 0x40]
  else if n < 0x10000 then
    [0xE0 + n / 0x1000, 0x80 + (n / 0x40) % 0x40, 0x80 + n % 0x40]
  else
    [0xF0 + n / 0x40000, 0x80 + (n / 0x1000) % 0x40, 0x80 + (n / 0x40) % 0x40,
      0x80 + n % 0x40]

/-- `str::as_bytes`: the UTF-8 byte sequence of a Rust string. -/
def encodeUtf8 (s : RStr) : List Nat := s.flatMap encodeChar

/-- Is `b` a UTF-8 continuation byte? -/
def isCont (b : Nat) : Bool := 0x80 ≤ b && b < 0xC0

/-- `std::str::from_utf8`: strict UTF-8 decoding (RFC 3629 — rejects
continuation bytes in lead position, overlong forms, surrogates and
code points above U+10FFFF). Returns `none` exactly when the Rust
function returns `Err`. -/
def decodeUtf8 : List Nat → Option RStr
  | [] => some []
  | b :: rest =>
    if b < 0x80 then
      (decodeUtf8 rest).map (fun cs => Char.ofNat b :: cs)
    else if b < 0xC2 then none
    else if b < 0xE0 then
      match rest with
      | b1 :: r2 =>
        if isCont b1 then
          (decodeUtf8 r2).map
            (fun cs => Char.ofNat ((b - 0xC0) * 0x40 + (b1 - 0x80)) :: cs)
        else none
      | [] => none
    else if b < 0xF0 then
      match rest with
      | b1 :: b2 :: r3 =>
        if isCont b1 && isCont b2 && (b ≠ 0xE0 || 0xA0 ≤ b1) &&
            (b ≠ 0xED || b1 < 0xA0) then
          (decodeUtf8 r3).map
            (fun cs =>
              Char.ofNat ((b - 0xE0) * 0x1000 + (b1 - 0x80) * 0x40 + (b2 - 0x80)) :: cs)
        else none
      | _ => none
    else if b < 0xF5 then
      match rest with
      | b1 :: b2 :: b3 :: r4 =>
        if isCont b1 && isCont b2 && isCont b3 && (b ≠ 0xF0 || 0x90 ≤ b1) &&
            (b ≠ 0xF4 || b1 < 0x90) then
          (decodeUtf8 r4).map
            (fun cs =>
              Char.ofNat ((b - 0xF0) * 0x40000 + (b1 - 0x80) * 0x1000 +
                (b2 - 0x80) * 0x40 + (b3 - 0x80)) :: cs)
        else none
      | _ => none
    else none

/-- The Unicode `White_Space` code points, the set used by
`char::is_whitespace` and hence by `str::trim`. -/
def rustWhitespaceCodes : List Nat :=
  [0x09, 0x0A, 0x0B, 0x0C, 0x0D, 0x20, 0x85, 0xA0, 0x1680,
   0x2000, 0x2001, 0x2002, 0x2003, 0x2004, 0x2005, 0x2006, 0x2007,
   0x2008, 0x2009, 0x200A, 0x2028, 0x2029, 0x202F, 0x205F, 0x3000]

/-- `char::is_whitespace`. -/
def rustIsWhitespace (c : Char) : Bool := c.toNat ∈ rustWhitespaceCodes

/-- `str::trim`: drop whitespace from both ends. -/
def trimStr (s : RStr) : RStr :=
  ((s.dropWhile rustIsWhitespace).reverse.dropWhile rustIsWhitespace).reverse

/-- `str::split(sep)`: pieces between occurrences of `sep`, empty pieces
kept, so `n` separators yield `n + 1` pieces. -/
def splitOnChar (sep : Char) : RStr → List RStr
  | [] => [[]]
  | c :: rest =>
    let r := splitOnChar sep rest
    if c = sep then [] :: r
    else
      match r with
      | h :: t => (c :: h) :: t
      | [] => [[c]]

/-- ASCII lower-casing of one character, as applied byte-wise by
`eq_ignore_ascii_case`; it is also the embedding of the per-character
mapping of `str::to_lowercase` (the source's hosts and cookie domains are
ASCII; non-ASCII simple case mappings are left unchanged by the model). -/
def lowerChar (c : Char) : Char :=
  if 0x41 ≤ c.toNat ∧ c.toNat ≤ 0x5A then Char.ofNat (c.toNat + 0x20) else c

/-- `str::to_lowercase`. -/
def toLowerStr (s : RStr) : RStr := s.map lowerChar

/-- `str::eq_ignore_ascii_case`: same length and ASCII-case-folded
pointwise equality. -/
def eqIgnoreAsciiCase : RStr → RStr → Bool
  | [], [] => true
  | a :: as_, b :: bs => (lowerChar a == lowerChar b) && eqIgnoreAsciiCase as_ bs
  | _, _ => false

/-- Result of running Rust code that may panic. -/
inductive PanicOr (α : Type) where
  | panicked : PanicOr α
  | ret (a : α) : PanicOr α
deriving DecidableEq

/-- Is byte offset `n` a character boundary of `s`
(`str::is_char_boundary`, restricted to `n ≤ len`; offsets past the end
yield `false`, where Rust slicing panics as well)? -/
def boundaryAt : RStr → Nat → Bool
  | _, 0 => true
  | [], _ + 1 => false
  | c :: rest, n + 1 =>
    if n + 1 < charSize c then false else boundaryAt rest (n + 1 - charSize c)

/-- Characters making up the first `n` bytes of `s` (meaningful when
`boundaryAt s n`; used to model the byte slice `s[..n]`). -/
def takeBytes : RStr → Nat → RStr
  | _, 0 => []
  | [], _ + 1 => []
  | c :: rest, n + 1 => c :: takeBytes rest (n + 1 - charSize c)

/-- Characters after the first `n` bytes of `s` (models `s[n..]`). -/
def dropBytes : RStr → Nat → RStr
  | s, 0 => s
  | [], _ + 1 => []
  | c :: rest, n + 1 => dropBytes rest (n + 1 - charSize c)

/-!  ## Error model (`src/error.rs`)

`NativeError` is `{type, message, details}` with a free-form JSON
`details` payload.  Every `details` object the modelled code constructs is
a flat object of string and integer fields, so the embedding uses a flat
association list of JSON leaves.  -/

/-- A JSON leaf value as used in the engine's `details` payloads. -/
inductive JVal where
  | jnum (n : Nat)
  | jstr (s : RStr)
deriving DecidableEq

/-- `NativeError` from `src/error.rs` (`type_name` serializes as "type"). -/
structure NativeError where
  type_name : RStr
  message : RStr
  details : List (RStr × JVal)
deriving DecidableEq

/-- Field lookup in a `details` object. -/
def jget (k : RStr) : List (RStr × JVal) → Option JVal
  | [] => none
  | (k', v) :: rest => if k' = k then some v else jget k rest

/-!  ## Domain Safety Validator
(`is_cookie_domain_safe`, `extract_cookie_domain`, lib.rs lines 291–336)  -/

/-- The per-attribute body of the `find_map` closure in
`extract_cookie_domain`:

    let attr = attr.trim();
    if attr.len() > 7 && attr[..7].eq_ignore_ascii_case("domain=") {
        Some(attr[7..].trim())
    } else { None }

`attr[..7]` is a byte slice: when the attribute is longer than 7 bytes and
byte 7 is not a character boundary, the slice panics. -/
def attrDomainValue (t : RStr) : PanicOr (Option RStr) :=
  if utf8LenS t > 7 then
    if boundaryAt t 7 then
      if eqIgnoreAsciiCase (takeBytes t 7) (chars "domain=") then
        .ret (some (trimStr (dropBytes t 7)))
      else .ret none
    else .panicked
  else .ret none

/-- `find_map` over the remaining attributes: first `some` wins, a panic
aborts the whole scan. -/
def scanAttrs : List RStr → PanicOr (Option RStr)
  | [] => .ret none
  | a :: rest =>
    match attrDomainValue (trimStr a) with
    | .panicked => .panicked
    | .ret (some v) => .ret (some v)
    | .ret none => scanAttrs rest

/-- `extract_cookie_domain` (lib.rs 324–336): split the header on `;`,
skip the leading `name=value` pair, and return the value of the first
attribute recognised as `Domain=`. -/
def extract_cookie_domain (header : RStr) : PanicOr (Option RStr) :=
  scanAttrs ((splitOnChar ';' header).drop 1)

/-- Normalization applied to the extracted Domain value (lib.rs 307):
`domain.trim_start_matches('.').to_lowercase()`.
`trim_start_matches` strips the pattern repeatedly, hence the loop. -/
def trimStartMatchesDot : RStr → RStr
  | [] => []
  | c :: rest => if c = '.' then trimStartMatchesDot rest else c :: rest

/-- The normalized ("effective") cookie domain. -/
def normalize_domain (domain : RStr) : RStr :=
  toLowerStr (trimStartMatchesDot domain)

/-- `str::ends_with(&str)` is a byte-suffix test; both strings are
compared through their UTF-8 encodings. -/
def endsB (h e : List Nat) : Bool := h.drop (h.length - e.length) == e

/-- The origin check of lib.rs 317–320, on the lower-cased host and the
effective domain:

    host == effective_domain
      || (host.len() > effective_domain.len()
          && host.ends_with(&effective_domain)
          && host.as_bytes()[host.len() - effective_domain.len() - 1] == b'.')
-/
def hostMatches (host eff : RStr) : Bool :=
  host == eff ||
    (decide (utf8LenS eff < utf8LenS host) &&
      endsB (encodeUtf8 host) (encodeUtf8 eff) &&
      ((encodeUtf8 host).get? (utf8LenS host - utf8LenS eff - 1) == some 46))

/-- `is_cookie_domain_safe` (lib.rs 296–321).  The external capability
`psl::domain(d).is_none()` — "d has no registrable domain, i.e. d is a
public suffix (or unparsable)" — is the parameter `pslDomainIsNone`,
exactly the collaborator boundary drawn by the specification. -/
def is_cookie_domain_safe (pslDomainIsNone : RStr → Bool)
    (header_bytes : List Nat) (request_host : RStr) : PanicOr Bool :=
  match decodeUtf8 header_bytes with
  | none => .ret false
  | some header_str =>
    match extract_cookie_domain header_str with
    | .panicked => .panicked
    | .ret none => .ret true
    | .ret (some domain) =>
      let effective_domain := normalize_domain domain
      if pslDomainIsNone effective_domain then .ret false
      else .ret (hostMatches (toLowerStr request_host) effective_domain)

/-- Sample instantiation of the public-suffix capability, used by the
concrete witnesses: these strings are public suffixes, everything else
has a registrable domain. -/
def samplePsl (d : RStr) : Bool :=
  d ∈ [chars "com", chars "co.uk", chars "uk", chars "net", chars "org",
       chars "github.io"]

/-!  Specification-side reading of the Domain extraction, used to state
C6 (and the counterexamples of C1/C2/C6).  A "Domain attribute" is a
semicolon-delimited attribute whose name is `Domain` case-insensitively
and whose value is non-empty (RFC 6265 requires a non-empty
`domain-value`; the source likewise only recognises attributes strictly
longer than the 7 bytes of `domain=`).  -/

/-- Spec-side per-attribute test: after trimming, the attribute starts
with `domain=` (ASCII case-insensitively) and has a non-empty value. -/
def spec_attr_domain (t : RStr) : Option RStr :=
  if toLowerStr (t.take 7) = chars "domain=" ∧ t.drop 7 ≠ [] then
    some (trimStr (t.drop 7))
  else none

/-- Spec-side scan: value of the first Domain attribute. -/
def specScanAttrs : List RStr → Option RStr
  | [] => none
  | a :: rest =>
    match spec_attr_domain (trimStr a) with
    | some v => some v
    | none => specScanAttrs rest

/-- Spec-side Domain extraction: first occurrence among the attributes
after the `name=value` pair. -/
def spec_extract_domain (header : RStr) : Option RStr :=
  specScanAttrs ((splitOnChar ';' header).drop 1)

/-- The claim C7 normalization: strip exactly one leading dot, then
lower-case. -/
def claimNormalizeOneDot (domain : RStr) : RStr :=
  toLowerStr (match domain with | '.' :: rest => rest | d => d)

/-!  ## Panic containment (`run_with_panic_protection`, lib.rs 103–118)

`catch_unwind` observes either the closure's normal result or the panic
payload, a `Box<dyn Any>`.  The embedding replaces the closure by that
observable outcome: `completed r` for a run that finished with result
`r`, `panicked p` for a run that unwound with payload `p`.  The payload
downcasts tried by the source — owned `String`, then `&str`, then
anything else — are the three constructors.  -/

/-- The panic payload at the `catch_unwind` boundary. -/
inductive PanicPayload where
  | ofString (s : RStr)
  | ofStr (s : RStr)
  | other
deriving DecidableEq

/-- Observable outcome of running the protected closure. -/
inductive ExecOutcome (α : Type) where
  | completed (r : Except NativeError α)
  | panicked (p : PanicPayload)

/-- `run_with_panic_protection`: pass a completed result through; turn a
panic into a `nif_panic` error carrying the downcast message, or
"unknown panic" when the payload is not a string. -/
def run_with_panic_protection {α : Type} (outcome : ExecOutcome α) :
    Except NativeError α :=
  match outcome with
  | .completed result => result
  | .panicked payload =>
    let message :=
      match payload with
      | .ofString s => s
      | .ofStr s => s
      | .other => chars "unknown panic"
    .error ⟨chars "nif_panic", message, []⟩

/-!  ## Bounded body reader (`read_body_with_limit`, lib.rs 156–192)

The response body stream is the sequence of results of successive
`response.chunk().await` calls: each item is either a data chunk or a
transport-level read failure.  The `Vec::with_capacity` pre-sizing from
the `content-length` header only chooses an allocation size and has no
effect on the returned bytes, so it does not appear in the model.  -/

/-- One `response.chunk()` outcome. -/
inductive BodyChunk where
  | chunk (bytes : List Nat)
  | readError (reason debug : RStr)

/-- `usize::MAX` on the 64-bit targets the NIF is built for;
`max_size.unwrap_or(u64::MAX) as usize`. -/
def USIZE_MAX : Nat := 2 ^ 64 - 1

/-- Error for a body growing past the limit:
`invalid_request` / "response body exceeds max_body_size" / `{"limit": limit}`. -/
def bodyLimitErr (limit : Nat) : NativeError :=
  ⟨chars "invalid_request", chars "response body exceeds max_body_size",
    [(chars "limit", .jnum limit)]⟩

/-- Error for a failed chunk read:
`transport_error` / "failed to read response body" / reason + debug. -/
def bodyReadErr (reason debug : RStr) : NativeError :=
  ⟨chars "transport_error", chars "failed to read response body",
    [(chars "reason", .jstr reason), (chars "debug", .jstr debug)]⟩

/-- The chunk loop: after fetching a chunk, fail if the accumulated
length would exceed the limit, else append and continue. -/
def readBodyGo (limit : Nat) : List BodyChunk → List Nat →
    Except NativeError (List Nat)
  | [], acc => .ok acc
  | .readError reason debug :: _, _ => .error (bodyReadErr reason debug)
  | .chunk c :: rest, acc =>
    if acc.length + c.length > limit then .error (bodyLimitErr limit)
    else readBodyGo limit rest (acc ++ c)

/-- `read_body_with_limit`. -/
def read_body_with_limit (stream : List BodyChunk) (max_size : Option Nat) :
    Except NativeError (List Nat) :=
  readBodyGo (match max_size with | some n => n | none => USIZE_MAX) stream []

/-- An all-data stream with the given chunks. -/
def chunkStream (chunks : List (List Nat)) : List BodyChunk :=
  chunks.map BodyChunk.chunk

/-- Total number of body bytes carried by a chunk list. -/
def totalLen (chunks : List (List Nat)) : Nat := (chunks.map List.length).sum

/-!  ## Client pool (`get_or_build_client`, lib.rs 50–101)

The pool is the process-wide `CLIENT_CACHE`; the embedding threads its
state explicitly.  A client handle's identity is a `Nat` (clones of one
cached `Client` share it).  The external `wreq`/`wreq_util` capabilities
are a `BuildEnv`: whether a profile name deserializes to an `Emulation`
variant, whether `builder.build()` succeeds, and the external error
strings.  The read-lock fast path and the double-checked write-lock path
collapse to a single lookup in this sequential model; `pool_max_idle_per_host`,
`connect_timeout` and `cert_verification` configure the handle itself and
do not alter pool behaviour.  -/

/-- Cache key: (emulation profile, insecure_skip_verify). -/
abbrev ClientKey := Option RStr × Bool

/-- Identity of an underlying client instance. -/
abbrev Client := Nat

/-- The client cache plus a supply of fresh client identities. -/
structure CacheState where
  entries : List (ClientKey × Client)
  nextId : Nat
deriving DecidableEq

/-- External capabilities used while building a client. -/
structure BuildEnv where
  knownProfile : RStr → Bool
  buildOk : ClientKey → Bool
  profileErrReason : RStr → RStr
  buildErrReason : ClientKey → RStr
  buildErrDebug : ClientKey → RStr

/-- `HashMap::get` on the cache. -/
def lookupA (entries : List (ClientKey × Client)) (k : ClientKey) :
    Option Client :=
  match entries with
  | [] => none
  | (k', c) :: rest => if k' = k then some c else lookupA rest k

/-- `invalid_request` / "unknown emulation profile" (lib.rs 76–82). -/
def unknownProfileErr (env : BuildEnv) (p : RStr) : NativeError :=
  ⟨chars "invalid_request", chars "unknown emulation profile",
    [(chars "reason", .jstr (env.profileErrReason p)),
     (chars "value", .jstr p)]⟩

/-- `transport_error` / "failed to build HTTP client" (lib.rs 91–96). -/
def clientBuildErr (env : BuildEnv) (k : ClientKey) : NativeError :=
  ⟨chars "transport_error", chars "failed to build HTTP client",
    [(chars "reason", .jstr (env.buildErrReason k)),
     (chars "debug", .jstr (env.buildErrDebug k))]⟩

/-- Build a new client and insert it into the cache before returning. -/
def buildNew (env : BuildEnv) (key : ClientKey) (s : CacheState) :
    Except NativeError Client × CacheState :=
  if env.buildOk key then
    (.ok s.nextId, ⟨(key, s.nextId) :: s.entries, s.nextId + 1⟩)
  else (.error (clientBuildErr env key), s)

/-- `get_or_build_client`: cache hit returns the cached handle unchanged;
on a miss, resolve the emulation profile (unknown name is a terminal
`invalid_request`), build, and insert. -/
def get_or_build_client (env : BuildEnv) (emulation : Option RStr)
    (insecure_skip_verify : Bool) (s : CacheState) :
    Except NativeError Client × CacheState :=
  let key : ClientKey := (emulation, insecure_skip_verify)
  match lookupA s.entries key with
  | some client => (.ok client, s)
  | none =>
    match emulation with
    | some profile_name =>
      if env.knownProfile profile_name then buildNew env key s
      else (.error (unknownProfileErr env profile_name), s)
    | none => buildNew env key s

/-- One engine step: some call to `get_or_build_client` (directly or via
`execute_request`) transformed the cache. -/
inductive Evolves (env : BuildEnv) : CacheState → CacheState → Prop where
  | refl (s : CacheState) : Evolves env s s
  | step (s t : CacheState) (e : Option RStr) (b : Bool) :
      Evolves env s t → Evolves env s (get_or_build_client env e b t).2

/-- Cache states reachable from the empty pool created at start-up. -/
def Reachable (env : BuildEnv) (s : CacheState) : Prop :=
  Evolves env ⟨[], 0⟩ s

/-!  ## Request executor (`execute_request`, lib.rs 194–289)

The network send is the external transport capability: its outcome for
the one modelled request is part of `NetEnv`.  Header attachment, the
receive timeout and the request body configure the outgoing request and
are reflected in that outcome; the cookie-jar read/write steps only run
when a jar is supplied and do not alter the error results the claims
are about, so the model executes the no-jar path of the source.
Response header values are already strings in the model (the source
decodes them with `from_utf8_lossy`).  -/

/-- `NativeRequest` from `src/request.rs` (`local_address` is carried by
the descriptor but never read by `execute_request`). -/
structure NativeRequest where
  method : RStr
  url : RStr
  headers : List (RStr × RStr)
  receive_timeout_ms : Nat
  emulation : Option RStr
  insecure_skip_verify : Bool
  max_body_size_bytes : Option Nat
  local_address : Option RStr

/-- `NativeResponseMeta` from `src/response.rs` / lib.rs 280–285. -/
structure NativeResponseMeta where
  status : Nat
  url : RStr
  headers : List (RStr × RStr)
deriving DecidableEq

/-- The response delivered by a successful send. -/
structure ResponseData where
  status : Nat
  url : RStr
  headers : List (RStr × RStr)
  stream : List BodyChunk

/-- Outcome of `builder.send().await` for the modelled request. -/
inductive SendOutcome where
  | ok (resp : ResponseData)
  | fail (reason debug : RStr)

/-- External capabilities of one request execution. -/
structure NetEnv where
  build : BuildEnv
  send : SendOutcome
  methodErrReason : RStr

/-- Is `m` a valid HTTP method per `http::Method::from_bytes`: non-empty
and made of RFC 7230 token characters
(alphanumerics and `! # $ % & ' * + - . ^ _ | ~` and the backquote,
all ASCII)? -/
def methodTokenChar (c : Char) : Bool :=
  let n := c.toNat
  (0x30 ≤ n && n ≤ 0x39) || (0x41 ≤ n && n ≤ 0x5A) || (0x61 ≤ n && n ≤ 0x7A) ||
    n ∈ [0x21, 0x23, 0x24, 0x25, 0x26, 0x27, 0x2A, 0x2B, 0x2D, 0x2E,
      0x5E, 0x5F, 0x60, 0x7C, 0x7E]

/-- `Method::from_bytes(request.method.as_bytes()).is_ok()`. -/
def isMethodToken (m : RStr) : Bool := !m.isEmpty && m.all methodTokenChar

/-- `invalid_request` / "invalid HTTP method" (lib.rs 202–208); the
reason string is the external `http::method::InvalidMethod` display. -/
def invalidMethodErr (env : NetEnv) (m : RStr) : NativeError :=
  ⟨chars "invalid_request", chars "invalid HTTP method",
    [(chars "reason", .jstr env.methodErrReason),
     (chars "value", .jstr m)]⟩

/-- `transport_error` / "request execution failed" (lib.rs 240–246). -/
def sendFailErr (reason debug : RStr) : NativeError :=
  ⟨chars "transport_error", chars "request execution failed",
    [(chars "reason", .jstr reason), (chars "debug", .jstr debug)]⟩

/-- `execute_request` (no-jar path): resolve a client from the pool,
validate the method, send, read the body under the limit, and assemble
`NativeResponseMeta` plus the raw body.  Every failure is terminal and
leaves the pool state as the client-resolution step left it. -/
def execute_request (env : NetEnv) (request : NativeRequest)
    (_body : Option (List Nat)) (st : CacheState) :
    Except NativeError (NativeResponseMeta × List Nat) × CacheState :=
  match get_or_build_client env.build request.emulation
      request.insecure_skip_verify st with
  | (.error e, st') => (.error e, st')
  | (.ok _client, st') =>
    if isMethodToken request.method then
      match env.send with
      | .fail reason debug => (.error (sendFailErr reason debug), st')
      | .ok resp =>
        match read_body_with_limit resp.stream request.max_body_size_bytes with
        | .error e => (.error e, st')
        | .ok body_bytes =>
          (.ok (⟨resp.status, resp.url, resp.headers⟩, body_bytes), st')
    else (.error (invalidMethodErr env request.method), st')

/-- Number of leading dots of a domain string (spec-side helper for the
normalization characterization). -/
def countLeadingDots (d : RStr) : Nat := (d.takeWhile (fun c => c == '.')).length

/-- Pool invariant maintained by `get_or_build_client`: cached client
identities are fresh and pairwise distinct, and every cached key holds a
resolvable emulation profile (a client is only inserted after its
profile resolved). -/
structure CacheWF (env : BuildEnv) (s : CacheState) : Prop where
  ids_lt : ∀ p ∈ s.entries, p.2 < s.nextId
  ids_nodup : (s.entries.map Prod.snd).Nodup
  keys_known : ∀ p ∈ s.entries, ∀ q, p.1.1 = some q → env.knownProfile q = true

/-- Build environment in which every profile resolves and every build
succeeds (concrete witness instantiation). -/
def buildEnvAllOk : BuildEnv :=
  ⟨fun _ => true, fun _ => true, fun _ => [], fun _ => [], fun _ => []⟩

/-- Build environment in which no profile name resolves (concrete
witness instantiation). -/
def buildEnvNoProfiles : BuildEnv :=
  ⟨fun _ => false, fun _ => true, fun _ => [], fun _ => [], fun _ => []⟩

/-- The empty pool present at process start. -/
def emptyCache : CacheState := ⟨[], 0⟩

/-- The pool after one default-key build from the empty pool. -/
def cacheAfterDefault : CacheState := ⟨[((none, false), 0)], 1⟩

/-- Request-execution environment over `buildEnvAllOk`. -/
def netEnvAllOk : NetEnv := ⟨buildEnvAllOk, .fail [] [], []⟩

/-- Request-execution environment over `buildEnvNoProfiles`. -/
def netEnvNoProfiles : NetEnv := ⟨buildEnvNoProfiles, .fail [] [], []⟩

/-- A minimal request descriptor with the given method and profile. -/
def sampleRequest (m : RStr) (e : Option RStr) : NativeRequest :=
  ⟨m, chars "http://example.com", [], 30000, e, false, none, none⟩

/-!  ## Infrastructure lemmas  -/

theorem charSize_pos (c : Char) : 1 ≤ charSize c := by
  simp only [charSize]
  split
  · exact Nat.le_refl 1
  · split
    · omega
    · split <;> omega

theorem charSize_of_ascii {c : Char} (h : c.toNat < 0x80) : charSize c = 1 := by
  simp [charSize, h]

theorem ascii_of_lowerChar {c : Char} (h : (lowerChar c).toNat < 0x80) :
    c.toNat < 0x80 := by
  by_cases hc : 0x41 ≤ c.toNat ∧ c.toNat ≤ 0x5A
  · omega
  · simpa [lowerChar, hc] using h

theorem utf8LenS_cons (c : Char) (s : RStr) :
    utf8LenS (c :: s) = charSize c + utf8LenS s := by
  simp [utf8LenS]

theorem utf8LenS_append (a b : RStr) :
    utf8LenS (a ++ b) = utf8LenS a + utf8LenS b := by
  simp [utf8LenS]

theorem utf8LenS_pos {s : RStr} (h : s ≠ []) : 1 ≤ utf8LenS s := by
  cases s with
  | nil => exact absurd rfl h
  | cons c rest =>
    have := charSize_pos c
    rw [utf8LenS_cons]
    omega

theorem utf8LenS_of_ascii {s : RStr} (h : ∀ c ∈ s, charSize c = 1) :
    utf8LenS s = s.length := by
  induction s with
  | nil => rfl
  | cons c rest ih =>
    rw [utf8LenS_cons, h c (List.mem_cons_self c rest),
      ih fun x hx => h x (List.mem_cons_of_mem c hx), List.length_cons]
    omega

theorem encodeChar_length (c : Char) : (encodeChar c).length = charSize c := by
  simp only [encodeChar, charSize]
  split
  · rfl
  · split
    · rfl
    · split <;> rfl

theorem encodeUtf8_cons (c : Char) (s : RStr) :
    encodeUtf8 (c :: s) = encodeChar c ++ encodeUtf8 s := by
  simp [encodeUtf8]

theorem encodeUtf8_length (s : RStr) : (encodeUtf8 s).length = utf8LenS s := by
  induction s with
  | nil => rfl
  | cons c rest ih =>
    rw [encodeUtf8_cons, List.length_append, encodeChar_length, ih,
      utf8LenS_cons]

theorem endsB_iff (h e : List Nat) : endsB h e = true ↔ e <:+ h := by
  rw [endsB, beq_iff_eq, List.suffix_iff_eq_drop, eq_comm]

/-- A byte string ends with `"." ++ e` exactly when it ends with `e`, is
strictly longer, and the byte just before the suffix is the dot. -/
theorem suffix_cons_dot_iff (H E : List Nat) :
    (E.length < H.length ∧ H.drop (H.length - E.length) = E ∧
      H.get? (H.length - E.length - 1) = some 46) ↔ (46 :: E) <:+ H := by
  constructor
  · rintro ⟨hlt, hdrop, hget⟩
    have hn : 1 ≤ H.length - E.length := by omega
    have htd := List.take_append_drop (H.length - E.length) H
    have hlenP : (H.take (H.length - E.length)).length = H.length - E.length := by
      rw [List.length_take]
      omega
    have hgetP : (H.take (H.length - E.length)).get? (H.length - E.length - 1) =
        some 46 := by
      rw [List.get?_take (by omega)]
      exact hget
    set P := H.take (H.length - E.length) with hP
    have htdP := List.take_append_drop (H.length - E.length - 1) P
    have hlen1 : (P.drop (H.length - E.length - 1)).length = 1 := by
      rw [List.length_drop, hlenP]
      omega
    have hhead : (P.drop (H.length - E.length - 1)).get? 0 = some 46 := by
      rw [List.get?_drop]
      simpa using hgetP
    have hdot : P.drop (H.length - E.length - 1) = [46] := by
      cases hD : P.drop (H.length - E.length - 1) with
      | nil => rw [hD] at hlen1; simp at hlen1
      | cons x t =>
        rw [hD] at hlen1 hhead
        simp at hlen1 hhead
        simp [hhead, hlen1]
    refine ⟨P.take (H.length - E.length - 1), ?_⟩
    calc P.take (H.length - E.length - 1) ++ 46 :: E
        = P.take (H.length - E.length - 1) ++ ([46] ++ E) := rfl
      _ = (P.take (H.length - E.length - 1) ++ [46]) ++ E := by
          rw [List.append_assoc]
      _ = (P.take (H.length - E.length - 1) ++
            P.drop (H.length - E.length - 1)) ++ E := by rw [hdot]
      _ = P ++ E := by rw [htdP]
      _ = P ++ H.drop (H.length - E.length) := by rw [hdrop]
      _ = H := htd
  · rintro ⟨p, hp⟩
    have hH : H = (p ++ [46]) ++ E := by
      rw [List.append_assoc]
      exact hp.symm
    have hlen : H.length = p.length + 1 + E.length := by
      rw [hH]; simp [List.length_append]; omega
    have hidx : H.length - E.length = p.length + 1 := by omega
    refine ⟨by omega, ?_, ?_⟩
    · rw [hidx, hH]
      exact List.drop_left' (by simp)
    · rw [hidx, hH]
      simp only [Nat.add_sub_cancel]
      rw [List.get?_append (by simp)]
      rw [List.get?_append_right (by omega)]
      simp

/-- `encodeUtf8` of a dot-prefixed string. -/
theorem encodeUtf8_dot_cons (s : RStr) :
    encodeUtf8 ('.' :: s) = 46 :: encodeUtf8 s := by
  rw [encodeUtf8_cons]
  rfl

/-- The origin check accepts exactly equality or a dotted byte suffix. -/
theorem hostMatches_iff (h eff : RStr) :
    hostMatches h eff = true ↔
      (h = eff ∨ encodeUtf8 ('.' :: eff) <:+ encodeUtf8 h) := by
  have key : (decide (utf8LenS eff < utf8LenS h) &&
      endsB (encodeUtf8 h) (encodeUtf8 eff) &&
      ((encodeUtf8 h).get? (utf8LenS h - utf8LenS eff - 1) == some 46)) = true ↔
      46 :: encodeUtf8 eff <:+ encodeUtf8 h := by
    rw [← suffix_cons_dot_iff (encodeUtf8 h) (encodeUtf8 eff)]
    simp only [Bool.and_eq_true, decide_eq_true_iff, beq_iff_eq, endsB,
      ← encodeUtf8_length]
    tauto
  simp only [hostMatches, Bool.or_eq_true, beq_iff_eq, encodeUtf8_dot_cons, key]

/-- Slicing at a character boundary splits the string and consumes
exactly `n` bytes. -/
theorem take_drop_bytes (t : RStr) (n : Nat) (hb : boundaryAt t n = true) :
    takeBytes t n ++ dropBytes t n = t ∧ utf8LenS (takeBytes t n) = n := by
  induction t generalizing n with
  | nil =>
    cases n with
    | zero => exact ⟨rfl, rfl⟩
    | succ m => simp [boundaryAt] at hb
  | cons c rest ih =>
    cases n with
    | zero => exact ⟨rfl, rfl⟩
    | succ m =>
      simp only [boundaryAt] at hb
      by_cases hlt : m + 1 < charSize c
      · simp [hlt] at hb
      · simp only [hlt, if_false] at hb
        obtain ⟨h1, h2⟩ := ih (m + 1 - charSize c) hb
        refine ⟨?_, ?_⟩
        · show (c :: takeBytes rest (m + 1 - charSize c)) ++
            dropBytes rest (m + 1 - charSize c) = c :: rest
          rw [List.cons_append, h1]
        · show utf8LenS (c :: takeBytes rest (m + 1 - charSize c)) = m + 1
          rw [utf8LenS_cons, h2]
          omega

/-- When the first `n` characters are all single-byte, byte slicing at
`n` agrees with character take/drop at `n`. -/
theorem bytes_take_of_ascii (t : RStr) (n : Nat)
    (hlen : (t.take n).length = n) (hascii : ∀ c ∈ t.take n, charSize c = 1) :
    takeBytes t n = t.take n ∧ dropBytes t n = t.drop n := by
  induction t generalizing n with
  | nil =>
    cases n with
    | zero => exact ⟨rfl, rfl⟩
    | succ m => simp at hlen
  | cons c rest ih =>
    cases n with
    | zero => exact ⟨rfl, rfl⟩
    | succ m =>
      have hc : charSize c = 1 := hascii c (by simp)
      have hlen' : (rest.take m).length = m := by simpa using hlen
      have hascii' : ∀ x ∈ rest.take m, charSize x = 1 := fun x hx =>
        hascii x (by simp [hx])
      obtain ⟨h1, h2⟩ := ih m hlen' hascii'
      refine ⟨?_, ?_⟩
      · show c :: takeBytes rest (m + 1 - charSize c) = (c :: rest).take (m + 1)
        rw [hc, Nat.add_sub_cancel, h1, List.take_succ_cons]
      · show dropBytes rest (m + 1 - charSize c) = (c :: rest).drop (m + 1)
        rw [hc, Nat.add_sub_cancel, h2, List.drop_succ_cons]

/-- `eq_ignore_ascii_case` holds exactly when the ASCII-folded strings
are equal. -/
theorem eqIgnoreAsciiCase_iff (a b : RStr) :
    eqIgnoreAsciiCase a b = true ↔ toLowerStr a = toLowerStr b := by
  induction a generalizing b with
  | nil => cases b <;> simp [eqIgnoreAsciiCase, toLowerStr]
  | cons x xs ih =>
    cases b with
    | nil => simp [eqIgnoreAsciiCase, toLowerStr]
    | cons y ys =>
      simp [eqIgnoreAsciiCase, toLowerStr, Bool.and_eq_true, beq_iff_eq]
      intro _
      simpa [toLowerStr] using ih ys

/-- Every character of the literal `domain=` is ASCII. -/
theorem domainLit_ascii : ∀ c ∈ chars "domain=", c.toNat < 0x80 := by decide

/-- `domain=` is already lower-case. -/
theorem toLower_domainLit : toLowerStr (chars "domain=") = chars "domain=" := by
  decide

/-- A string whose ASCII-folding is `domain=` is 7 single-byte
characters long. -/
theorem ascii_of_lower_eq_domainLit {l : RStr}
    (h : toLowerStr l = chars "domain=") :
    (∀ c ∈ l, charSize c = 1) ∧ l.length = 7 := by
  constructor
  · intro c hc
    have hm : lowerChar c ∈ chars "domain=" := by
      rw [← h]
      exact List.mem_map_of_mem lowerChar hc
    exact charSize_of_ascii (ascii_of_lowerChar (domainLit_ascii _ hm))
  · have := congrArg List.length h
    simpa [toLowerStr] using this

/-- When the closure of `extract_cookie_domain` returns (instead of
panicking), its result is the specification-side Domain-attribute test. -/
theorem attr_ret_spec (t : RStr) (o : Option RStr)
    (h : attrDomainValue t = .ret o) : o = spec_attr_domain t := by
  by_cases h7 : utf8LenS t > 7
  · by_cases hb : boundaryAt t 7 = true
    · by_cases heq :
        eqIgnoreAsciiCase (takeBytes t 7) (chars "domain=") = true
      · have ho : o = some (trimStr (dropBytes t 7)) := by
          simp [attrDomainValue, h7, hb, heq] at h
          exact h.symm
        have hlow : toLowerStr (takeBytes t 7) = chars "domain=" := by
          rw [eqIgnoreAsciiCase_iff] at heq
          rw [heq, toLower_domainLit]
        obtain ⟨hascii, hlenchars⟩ := ascii_of_lower_eq_domainLit hlow
        obtain ⟨htd, _⟩ := take_drop_bytes t 7 hb
        have htake : t.take 7 = takeBytes t 7 := by
          conv_lhs => rw [← htd]
          exact List.take_left' hlenchars
        have hdrop : t.drop 7 = dropBytes t 7 := by
          conv_lhs => rw [← htd]
          exact List.drop_left' hlenchars
        have h7len : utf8LenS (takeBytes t 7) = 7 := by
          rw [utf8LenS_of_ascii hascii, hlenchars]
        have hdropb : dropBytes t 7 ≠ [] := by
          intro hnil
          have : utf8LenS t = 7 := by
            rw [← htd, utf8LenS_append, h7len, hnil]
            rfl
          omega
        have hdropne : t.drop 7 ≠ [] := by
          rw [hdrop]
          exact hdropb
        rw [ho]
        simp only [spec_attr_domain]
        rw [if_pos ⟨by rw [htake]; exact hlow, hdropne⟩, hdrop]
      · have ho : o = none := by
          simp [attrDomainValue, h7, hb, heq] at h
          exact h.symm
        rcases Classical.em
          (toLowerStr (t.take 7) = chars "domain=" ∧ t.drop 7 ≠ []) with
          hcond | hcond
        · exfalso
          obtain ⟨hlow, _⟩ := hcond
          obtain ⟨hascii, hlenchars⟩ := ascii_of_lower_eq_domainLit hlow
          obtain ⟨h1, _⟩ := bytes_take_of_ascii t 7 hlenchars hascii
          apply heq
          rw [eqIgnoreAsciiCase_iff, h1, hlow, toLower_domainLit]
        · rw [ho]
          simp only [spec_attr_domain]
          rw [if_neg hcond]
    · exfalso
      simp [attrDomainValue, h7, hb] at h
  · have ho : o = none := by
      simp [attrDomainValue, h7] at h
      exact h.symm
    rcases Classical.em
      (toLowerStr (t.take 7) = chars "domain=" ∧ t.drop 7 ≠ []) with
      hcond | hcond
    · exfalso
      obtain ⟨hlow, hne⟩ := hcond
      obtain ⟨hascii, hlenchars⟩ := ascii_of_lower_eq_domainLit hlow
      have h7len : utf8LenS (t.take 7) = 7 := by
        rw [utf8LenS_of_ascii hascii, hlenchars]
      apply h7
      calc 7 < 7 + utf8LenS (t.drop 7) := by
            have := utf8LenS_pos hne
            omega
        _ = utf8LenS (t.take 7) + utf8LenS (t.drop 7) := by rw [h7len]
        _ = utf8LenS (t.take 7 ++ t.drop 7) := (utf8LenS_append _ _).symm
        _ = utf8LenS t := by rw [List.take_append_drop]
    · rw [ho]
      simp only [spec_attr_domain]
      rw [if_neg hcond]

/-- When the attribute scan returns, it computes the spec-side scan. -/
theorem scan_ret_spec (l : List RStr) (r : Option RStr)
    (h : scanAttrs l = .ret r) : r = specScanAttrs l := by
  induction l with
  | nil =>
    simp [scanAttrs] at h
    simp [specScanAttrs, ← h]
  | cons a rest ih =>
    simp only [scanAttrs] at h
    cases hA : attrDomainValue (trimStr a) with
    | panicked =>
      rw [hA] at h
      exact absurd h (by simp)
    | ret o =>
      rw [hA] at h
      have hspec := attr_ret_spec _ _ hA
      cases o with
      | some v =>
        simp at h
        simp [specScanAttrs, ← hspec]
        exact h.symm
      | none =>
        simp at h
        simp [specScanAttrs, ← hspec]
        exact ih h

/-- When `extract_cookie_domain` returns, it computes the spec-side
first-Domain-attribute extraction. -/
theorem extract_ret_spec (s : RStr) (r : Option RStr)
    (h : extract_cookie_domain s = .ret r) : r = spec_extract_domain s :=
  scan_ret_spec _ _ h

/-- Value of the validator once the Domain attribute has been extracted. -/
theorem safe_of_extract_some (psl : RStr → Bool) (bytes : List Nat)
    (s d host : RStr) (hdec : decodeUtf8 bytes = some s)
    (hex : extract_cookie_domain s = .ret (some d)) :
    is_cookie_domain_safe psl bytes host =
      (if psl (normalize_domain d) then .ret false
       else .ret (hostMatches (toLowerStr host) (normalize_domain d))) := by
  simp [is_cookie_domain_safe, hdec, hex]

/-- Claim C1 (amended): for every UTF-8 Set-Cookie header on which the
attribute scan reaches a Domain attribute without triggering the byte-7
slicing panic, and whose normalized Domain value is not a public suffix,
`is_cookie_domain_safe` returns true if and only if the lower-cased
request host equals the normalized domain, or ends with "." followed by
the normalized domain (a true label-boundary byte suffix). -/
theorem claim_C1 (psl : RStr → Bool) (bytes : List Nat) (s d host : RStr)
    (hdec : decodeUtf8 bytes = some s)
    (hex : extract_cookie_domain s = .ret (some d))
    (hpsl : psl (normalize_domain d) = false) :
    is_cookie_domain_safe psl bytes host = .ret true ↔
      (toLowerStr host = normalize_domain d ∨
        encodeUtf8 ('.' :: normalize_domain d) <:+ encodeUtf8 (toLowerStr host)) := by
  rw [safe_of_extract_some psl bytes s d host hdec hex, if_neg (by simp [hpsl])]
  constructor
  · intro h
    have hm : hostMatches (toLowerStr host) (normalize_domain d) = true := by
      injection h
    exact (hostMatches_iff _ _).mp hm
  · intro h
    rw [(hostMatches_iff _ _).mpr h]

/-- Claim C1 witness: with the sample public-suffix capability and the
header `x=1; Domain=example.com`, host `sub.example.com` is accepted and
host `notexample.com` is rejected. -/
theorem claim_C1_witness :
    is_cookie_domain_safe samplePsl
      (encodeUtf8 (chars "x=1; Domain=example.com"))
      (chars "sub.example.com") = .ret true ∧
    is_cookie_domain_safe samplePsl
      (encodeUtf8 (chars "x=1; Domain=example.com"))
      (chars "notexample.com") ≠ .ret true := by
  constructor
  · exact (claim_C1 samplePsl (encodeUtf8 (chars "x=1; Domain=example.com"))
      (chars "x=1; Domain=example.com") (chars "example.com")
      (chars "sub.example.com") (by decide) (by decide) (by decide)).mpr
      (by decide)
  · intro hmem
    exact absurd ((claim_C1 samplePsl
      (encodeUtf8 (chars "x=1; Domain=example.com"))
      (chars "x=1; Domain=example.com") (chars "example.com")
      (chars "notexample.com") (by decide) (by decide) (by decide)).mp hmem)
      (by decide)

/-- Claim C1 counterexample: the UTF-8 header
`a=b; xxxxxxé=1; Domain=example.com` carries the Domain attribute
`example.com` (not a public suffix) and the request host equals it, so
the claim asserts the validator returns true — but the validator panics
on the preceding attribute (byte 7 of `xxxxxxé=1` falls inside `é`), so
it does not return true. -/
theorem claim_C1_counterexample :
    spec_extract_domain (chars "a=b; xxxxxxé=1; Domain=example.com") =
      some (chars "example.com") ∧
    samplePsl (normalize_domain (chars "example.com")) = false ∧
    toLowerStr (chars "example.com") = normalize_domain (chars "example.com") ∧
    is_cookie_domain_safe samplePsl
      (encodeUtf8 (chars "a=b; xxxxxxé=1; Domain=example.com"))
      (chars "example.com") ≠ .ret true :=
  ⟨by decide, by decide, by decide, by decide⟩

/-- Claim C2 (amended): for every UTF-8 Set-Cookie header on which the
attribute scan reaches a Domain attribute without triggering the byte-7
slicing panic and whose normalized value the public-suffix capability
reports as having no registrable domain, `is_cookie_domain_safe` returns
false for every request host. -/
theorem claim_C2 (psl : RStr → Bool) (bytes : List Nat) (s d host : RStr)
    (hdec : decodeUtf8 bytes = some s)
    (hex : extract_cookie_domain s = .ret (some d))
    (hpsl : psl (normalize_domain d) = true) :
    is_cookie_domain_safe psl bytes host = .ret false := by
  rw [safe_of_extract_some psl bytes s d host hdec hex, if_pos (by simp [hpsl])]

/-- Claim C2 witness: `Domain=com` and `Domain=co.uk` are rejected for
host `example.com`. -/
theorem claim_C2_witness :
    is_cookie_domain_safe samplePsl (encodeUtf8 (chars "evil=1; Domain=com"))
      (chars "example.com") = .ret false ∧
    is_cookie_domain_safe samplePsl (encodeUtf8 (chars "evil=1; Domain=co.uk"))
      (chars "example.com") = .ret false :=
  ⟨claim_C2 samplePsl (encodeUtf8 (chars "evil=1; Domain=com"))
      (chars "evil=1; Domain=com") (chars "com") (chars "example.com")
      (by decide) (by decide) (by decide),
   claim_C2 samplePsl (encodeUtf8 (chars "evil=1; Domain=co.uk"))
      (chars "evil=1; Domain=co.uk") (chars "co.uk") (chars "example.com")
      (by decide) (by decide) (by decide)⟩

/-- Claim C2 counterexample: the UTF-8 header
`a=b; xxxxxxé=1; Domain=com` carries the public-suffix Domain `com`, so
the claim asserts the validator returns false for every host — but the
validator panics on the preceding attribute instead of returning false. -/
theorem claim_C2_counterexample :
    spec_extract_domain (chars "a=b; xxxxxxé=1; Domain=com") =
      some (chars "com") ∧
    samplePsl (normalize_domain (chars "com")) = true ∧
    is_cookie_domain_safe samplePsl
      (encodeUtf8 (chars "a=b; xxxxxxé=1; Domain=com"))
      (chars "example.com") ≠ .ret false :=
  ⟨by decide, by decide, by decide⟩

/-- Claim C3: a function that panics under `run_with_panic_protection`
yields a `nif_panic` error whose message is the panic payload verbatim
when the payload is an owned or borrowed string and "unknown panic"
otherwise, with empty details; a completed run passes through unchanged
— the panic never escapes the boundary. -/
theorem claim_C3 (α : Type) (s : RStr) (r : Except NativeError α) :
    run_with_panic_protection
        (ExecOutcome.panicked (PanicPayload.ofString s) : ExecOutcome α) =
      .error ⟨chars "nif_panic", s, []⟩ ∧
    run_with_panic_protection
        (ExecOutcome.panicked (PanicPayload.ofStr s) : ExecOutcome α) =
      .error ⟨chars "nif_panic", s, []⟩ ∧
    run_with_panic_protection
        (ExecOutcome.panicked PanicPayload.other : ExecOutcome α) =
      .error ⟨chars "nif_panic", chars "unknown panic", []⟩ ∧
    run_with_panic_protection (ExecOutcome.completed r) = r :=
  ⟨rfl, rfl, rfl, rfl⟩

/-- Claim C6 (amended): when the attribute scan returns without the
byte-7 slicing panic, `extract_cookie_domain` yields exactly the value
of the first semicolon-delimited attribute after the name=value pair
whose name is `Domain` (case-insensitive) with a non-empty value,
trimmed of surrounding whitespace; and when that scan finds no Domain
attribute, `is_cookie_domain_safe` accepts for every host (host-only
cookie). -/
theorem claim_C6 (s : RStr) (r : Option RStr)
    (hex : extract_cookie_domain s = .ret r) :
    r = spec_extract_domain s ∧
      (r = none → ∀ (psl : RStr → Bool) (bytes : List Nat) (host : RStr),
        decodeUtf8 bytes = some s →
          is_cookie_domain_safe psl bytes host = .ret true) := by
  refine ⟨extract_ret_spec s r hex, ?_⟩
  intro hnone psl bytes host hdec
  subst hnone
  simp [is_cookie_domain_safe, hdec, hex]

/-- Claim C6 witness: `session=abc; Path=/` has no Domain attribute and
is accepted for host `example.com`. -/
theorem claim_C6_witness :
    (none : Option RStr) = spec_extract_domain (chars "session=abc; Path=/") ∧
    is_cookie_domain_safe samplePsl
      (encodeUtf8 (chars "session=abc; Path=/")) (chars "example.com") =
      .ret true := by
  have h := claim_C6 (chars "session=abc; Path=/") none (by decide)
  exact ⟨h.1, h.2 rfl samplePsl (encodeUtf8 (chars "session=abc; Path=/"))
    (chars "example.com") (by decide)⟩

/-- Claim C6 counterexample: in `a=b; xxxxxxé=1; Domain=test.com` the
first Domain attribute carries `test.com`, but extraction panics on the
preceding attribute instead of yielding it. -/
theorem claim_C6_counterexample :
    spec_extract_domain (chars "a=b; xxxxxxé=1; Domain=test.com") =
      some (chars "test.com") ∧
    extract_cookie_domain (chars "a=b; xxxxxxé=1; Domain=test.com") =
      .panicked :=
  ⟨by decide, by decide⟩

/-- The Rust loop `trim_start_matches('.')` drops the maximal run of
leading dots. -/
theorem trimStartMatchesDot_eq_drop (d : RStr) :
    trimStartMatchesDot d = d.drop (countLeadingDots d) := by
  induction d with
  | nil => rfl
  | cons c rest ih =>
    by_cases hc : c = '.'
    · subst hc
      simp [trimStartMatchesDot, countLeadingDots, List.takeWhile_cons, ih]
    · simp [trimStartMatchesDot, countLeadingDots, List.takeWhile_cons, hc]

/-- After stripping, no leading dot remains. -/
theorem trimStartMatchesDot_head (d : RStr) :
    (trimStartMatchesDot d).head? ≠ some '.' := by
  induction d with
  | nil => simp [trimStartMatchesDot]
  | cons c rest ih =>
    by_cases hc : c = '.'
    · subst hc
      simpa [trimStartMatchesDot] using ih
    · simp [trimStartMatchesDot, hc]

/-- Claim C7 (amended): normalization strips the whole maximal run of
leading dots — not exactly one — and lower-cases the result; the
stripped domain never starts with a dot. -/
theorem claim_C7 (d : RStr) :
    normalize_domain d = toLowerStr (d.drop (countLeadingDots d)) ∧
    (trimStartMatchesDot d).head? ≠ some '.' :=
  ⟨by rw [normalize_domain, trimStartMatchesDot_eq_drop],
   trimStartMatchesDot_head d⟩

/-- Claim C7 counterexample: on `..example.com` the source normalization
strips both leading dots, while the claimed strip-exactly-one-dot
normalization keeps one, and the two results differ. -/
theorem claim_C7_counterexample :
    normalize_domain (chars "..Example.com") = chars "example.com" ∧
    claimNormalizeOneDot (chars "..Example.com") = chars ".example.com" ∧
    chars "example.com" ≠ chars ".example.com" :=
  ⟨by decide, by decide, by decide⟩

/-- Claim C10: `is_cookie_domain_safe` is not total — on the valid UTF-8
header `a=b; domainé=x` the attribute slice `attr[..7]` falls inside the
two-byte character `é` and the validator panics instead of returning a
boolean. -/
theorem claim_C10 :
    is_cookie_domain_safe samplePsl (encodeUtf8 (chars "a=b; domainé=x"))
      (chars "example.com") = .panicked := by
  decide

/-- The chunk loop succeeds and appends every chunk when the total stays
within the limit. -/
theorem readBodyGo_ok (limit : Nat) (chunks : List (List Nat))
    (acc : List Nat) (h : acc.length + totalLen chunks ≤ limit) :
    readBodyGo limit (chunkStream chunks) acc = .ok (acc ++ chunks.flatten) := by
  induction chunks generalizing acc with
  | nil => simp [chunkStream, readBodyGo]
  | cons c rest ih =>
    have hc : totalLen (c :: rest) = c.length + totalLen rest := by
      simp [totalLen]
    have hle : ¬acc.length + c.length > limit := by omega
    simp only [chunkStream, List.map_cons, readBodyGo, hle, if_false]
    rw [show List.map BodyChunk.chunk rest = chunkStream rest from rfl,
      ih (acc ++ c) (by simp; omega)]
    simp

/-- The chunk loop aborts with the limit error as soon as the
accumulated length would exceed the limit. -/
theorem readBodyGo_err (limit : Nat) (chunks : List (List Nat))
    (acc : List Nat) (hacc : acc.length ≤ limit)
    (h : acc.length + totalLen chunks > limit) :
    readBodyGo limit (chunkStream chunks) acc = .error (bodyLimitErr limit) := by
  induction chunks generalizing acc with
  | nil =>
    simp [totalLen] at h
    omega
  | cons c rest ih =>
    have hc : totalLen (c :: rest) = c.length + totalLen rest := by
      simp [totalLen]
    by_cases hover : acc.length + c.length > limit
    · simp only [chunkStream, List.map_cons, readBodyGo, hover, if_true]
    · simp only [chunkStream, List.map_cons, readBodyGo, hover, if_false]
      exact ih (acc ++ c) (by simp; omega) (by simp; omega)

/-- Claim C4: a body whose accumulated length is exactly the configured
`max_body_size` is returned whole; a body whose accumulated length
exceeds it fails with `invalid_request` carrying the configured limit in
the error details; an absent `max_body_size` reads the whole body
(unbounded up to `usize::MAX`, which any in-memory body satisfies). -/
theorem claim_C4 (chunks : List (List Nat)) (N : Nat) :
    (totalLen chunks = N →
      read_body_with_limit (chunkStream chunks) (some N) = .ok chunks.flatten ∧
      chunks.flatten.length = N) ∧
    (totalLen chunks > N →
      read_body_with_limit (chunkStream chunks) (some N) =
        .error (bodyLimitErr N) ∧
      jget (chars "limit") (bodyLimitErr N).details = some (.jnum N)) ∧
    (totalLen chunks ≤ USIZE_MAX →
      read_body_with_limit (chunkStream chunks) none = .ok chunks.flatten) := by
  refine ⟨fun hN => ⟨?_, ?_⟩, fun hN => ⟨?_, ?_⟩, fun hN => ?_⟩
  · rw [read_body_with_limit, readBodyGo_ok N chunks [] (by simpa using hN.le)]
    rfl
  · rw [List.length_join]
    simpa [totalLen] using hN
  · rw [read_body_with_limit,
      readBodyGo_err N chunks [] (by simp) (by simpa using hN)]
  · simp [jget, bodyLimitErr]
  · rw [read_body_with_limit,
      readBodyGo_ok USIZE_MAX chunks [] (by simpa using hN)]
    rfl

/-- Claim C4 witness: the stream `[1,2],[3]` succeeds whole at limit 3,
fails with the limit error at limit 2, and succeeds with no limit. -/
theorem claim_C4_witness :
    read_body_with_limit (chunkStream [[1, 2], [3]]) (some 3) =
      .ok [1, 2, 3] ∧
    read_body_with_limit (chunkStream [[1, 2], [3]]) (some 2) =
      .error (bodyLimitErr 2) ∧
    read_body_with_limit (chunkStream [[1, 2], [3]]) none = .ok [1, 2, 3] :=
  ⟨((claim_C4 [[1, 2], [3]] 3).1 (by decide)).1,
   ((claim_C4 [[1, 2], [3]] 2).2.1 (by decide)).1,
   (claim_C4 [[1, 2], [3]] 3).2.2 (by decide)⟩

/-- A successful cache lookup points at an entry of the cache. -/
theorem lookupA_mem {es : List (ClientKey × Client)} {k : ClientKey}
    {c : Client} (h : lookupA es k = some c) : (k, c) ∈ es := by
  induction es with
  | nil => simp [lookupA] at h
  | cons p rest ih =>
    obtain ⟨k', c'⟩ := p
    simp only [lookupA] at h
    by_cases hk : k' = k
    · rw [if_pos hk] at h
      injection h with h2
      subst hk
      subst h2
      exact List.mem_cons_self _ _
    · rw [if_neg hk] at h
      exact List.mem_cons_of_mem _ (ih h)

/-- `buildNew` succeeds exactly by handing out the fresh identity and
prepending it to the cache. -/
theorem buildNew_ok {env : BuildEnv} {key : ClientKey} {s : CacheState}
    {c : Client} {s' : CacheState} (h : buildNew env key s = (.ok c, s')) :
    c = s.nextId ∧ s' = ⟨(key, c) :: s.entries, s.nextId + 1⟩ := by
  unfold buildNew at h
  split at h
  · injection h with h1 h2
    injection h1 with h3
    exact ⟨h3.symm, by rw [← h2, h3]⟩
  · injection h with h1 _
    simp at h1

/-- A failing `buildNew` leaves the cache untouched. -/
theorem buildNew_err {env : BuildEnv} {key : ClientKey} {s : CacheState}
    {e : NativeError} {s' : CacheState}
    (h : buildNew env key s = (.error e, s')) : s' = s := by
  unfold buildNew at h
  split at h
  · injection h with h1 _
    simp at h1
  · injection h with _ h2
    exact h2.symm

/-- After a successful call, the key is cached with the returned client. -/
theorem get_ok_lookup {env : BuildEnv} {e : Option RStr} {b : Bool}
    {s : CacheState} {c : Client} {s' : CacheState}
    (h : get_or_build_client env e b s = (.ok c, s')) :
    lookupA s'.entries (e, b) = some c := by
  simp only [get_or_build_client] at h
  split at h
  · next client hl =>
    injection h with h1 h2
    injection h1 with h3
    rw [← h2, hl, h3]
  · next hl =>
    split at h
    · next p =>
      split at h
      · obtain ⟨hc, hs⟩ := buildNew_ok h
        rw [hs]
        simp [lookupA]
      · injection h with h1 _
        simp at h1
    · obtain ⟨hc, hs⟩ := buildNew_ok h
      rw [hs]
      simp [lookupA]

/-- A cache hit is returned unchanged. -/
theorem get_hit {env : BuildEnv} {e : Option RStr} {b : Bool}
    {s : CacheState} {c : Client}
    (hl : lookupA s.entries (e, b) = some c) :
    get_or_build_client env e b s = (.ok c, s) := by
  simp [get_or_build_client, hl]

/-- One pool step never removes or replaces an existing cache entry. -/
theorem step_mono {env : BuildEnv} (e : Option RStr) (b : Bool)
    {s : CacheState} {k : ClientKey} {c : Client}
    (h : lookupA s.entries k = some c) :
    lookupA (get_or_build_client env e b s).2.entries k = some c := by
  simp only [get_or_build_client]
  split
  · exact h
  · next hl =>
    have hkey : (e, b) ≠ k := by
      intro hk
      rw [hk, h] at hl
      exact absurd hl (by simp)
    have hbuild : ∀ key', key' = (e, b) →
        lookupA (buildNew env key' s).2.entries k = some c := by
      intro key' hk'
      unfold buildNew
      split
      · simp only [lookupA]
        rw [if_neg (by rw [hk']; exact hkey)]
        exact h
      · exact h
    split
    · split
      · exact hbuild _ rfl
      · exact h
    · exact hbuild _ rfl

/-- Pool evolution never removes or replaces an existing cache entry. -/
theorem evolve_mono {env : BuildEnv} {s t : CacheState}
    (hev : Evolves env s t) {k : ClientKey} {c : Client}
    (h : lookupA s.entries k = some c) :
    lookupA t.entries k = some c := by
  induction hev with
  | refl => exact h
  | step t e b hprev ih => exact step_mono e b ih

/-- The empty pool satisfies the invariant. -/
theorem wf_empty (env : BuildEnv) : CacheWF env ⟨[], 0⟩ := by
  refine ⟨?_, ?_, ?_⟩ <;> simp

/-- One pool step preserves the invariant. -/
theorem wf_step (env : BuildEnv) (e : Option RStr) (b : Bool)
    {s : CacheState} (hwf : CacheWF env s) :
    CacheWF env (get_or_build_client env e b s).2 := by
  simp only [get_or_build_client]
  split
  · exact hwf
  · next hl =>
    have hbuild : ∀ q, e = some q → env.knownProfile q = true →
        CacheWF env (buildNew env (e, b) s).2 := by
      intro q hq hkq
      unfold buildNew
      split
      · refine ⟨?_, ?_, ?_⟩
        · intro p hp
          rcases List.mem_cons.mp hp with hp | hp
          · rw [hp]
            exact Nat.lt_succ_self _
          · exact Nat.lt_succ_of_lt (hwf.ids_lt p hp)
        · have hnot : s.nextId ∉ List.map Prod.snd s.entries := by
            intro hmem
            obtain ⟨p, hp, hps⟩ := List.mem_map.mp hmem
            exact absurd hps (Nat.ne_of_lt (hwf.ids_lt p hp))
          exact List.nodup_cons.mpr ⟨hnot, hwf.ids_nodup⟩
        · intro p hp q' hq'
          rcases List.mem_cons.mp hp with hp | hp
          · rw [hp] at hq'
            simp only at hq'
            rw [hq] at hq'
            injection hq' with hq2
            rw [← hq2]
            exact hkq
          · exact hwf.keys_known p hp q' hq'
      · exact hwf
    have hbuildNone : e = none → CacheWF env (buildNew env (e, b) s).2 := by
      intro hq
      unfold buildNew
      split
      · refine ⟨?_, ?_, ?_⟩
        · intro p hp
          rcases List.mem_cons.mp hp with hp | hp
          · rw [hp]
            exact Nat.lt_succ_self _
          · exact Nat.lt_succ_of_lt (hwf.ids_lt p hp)
        · have hnot : s.nextId ∉ List.map Prod.snd s.entries := by
            intro hmem
            obtain ⟨p, hp, hps⟩ := List.mem_map.mp hmem
            exact absurd hps (Nat.ne_of_lt (hwf.ids_lt p hp))
          exact List.nodup_cons.mpr ⟨hnot, hwf.ids_nodup⟩
        · intro p hp q' hq'
          rcases List.mem_cons.mp hp with hp | hp
          · rw [hp] at hq'
            simp only at hq'
            rw [hq] at hq'
            exact absurd hq' (by simp)
          · exact hwf.keys_known p hp q' hq'
      · exact hwf
    split
    · next p =>
      split
      · next hkp => exact hbuild p rfl hkp
      · exact hwf
    · exact hbuildNone rfl

/-- Pool evolution preserves the invariant. -/
theorem wf_evolve {env : BuildEnv} {s t : CacheState}
    (hev : Evolves env s t) (hwf : CacheWF env s) : CacheWF env t := by
  induction hev with
  | refl => exact hwf
  | step t e b hprev ih => exact wf_step env e b ih

/-- Every reachable pool state satisfies the invariant. -/
theorem reachable_wf {env : BuildEnv} {s : CacheState}
    (h : Reachable env s) : CacheWF env s :=
  wf_evolve h (wf_empty env)

/-- Under the invariant, distinct keys are cached with distinct
clients. -/
theorem wf_distinct {env : BuildEnv} {s : CacheState} (hwf : CacheWF env s)
    {k1 k2 : ClientKey} {c1 c2 : Client}
    (h1 : lookupA s.entries k1 = some c1)
    (h2 : lookupA s.entries k2 = some c2) (hk : k1 ≠ k2) : c1 ≠ c2 := by
  intro hc
  have hm1 := lookupA_mem h1
  have hm2 := lookupA_mem h2
  have := List.inj_on_of_nodup_map hwf.ids_nodup hm1 hm2 (by simp [hc])
  injection this with hk' _
  exact hk hk'

/-- Under the invariant, a key whose profile does not resolve is never
cached. -/
theorem wf_unknown_none {env : BuildEnv} {s : CacheState}
    (hwf : CacheWF env s) {p : RStr} (hp : env.knownProfile p = false)
    (b : Bool) : lookupA s.entries (some p, b) = none := by
  cases hl : lookupA s.entries (some p, b) with
  | none => rfl
  | some c =>
    have := hwf.keys_known _ (lookupA_mem hl) p rfl
    rw [hp] at this
    exact absurd this (by simp)

/-- Claim C5: starting from any reachable pool state, a successful call
and any later successful call return the same client exactly when their
keys agree — the same key always yields the same cached client, distinct
keys never share a client — and no cache entry is ever removed or
replaced by later calls. -/
theorem claim_C5 (env : BuildEnv) (s s1 s2 s3 : CacheState)
    (e e' : Option RStr) (b b' : Bool) (c c' : Client)
    (hreach : Reachable env s)
    (h1 : get_or_build_client env e b s = (.ok c, s1))
    (hev : Evolves env s1 s2)
    (h2 : get_or_build_client env e' b' s2 = (.ok c', s3)) :
    ((e, b) = (e', b') → c = c') ∧
    ((e, b) ≠ (e', b') → c ≠ c') ∧
    (∀ k cl, lookupA s1.entries k = some cl → lookupA s2.entries k = some cl) := by
  have hlk1 : lookupA s1.entries (e, b) = some c := get_ok_lookup h1
  have hlk2 : lookupA s2.entries (e, b) = some c := evolve_mono hev hlk1
  refine ⟨?_, ?_, fun k cl h => evolve_mono hev h⟩
  · intro hkeys
    injection hkeys with he hb
    subst he
    subst hb
    have := (@get_hit env e b s2 c hlk2).symm.trans h2
    injection this with hok _
    injection hok
  · intro hkeys hcc
    have hwf1 : CacheWF env s1 := by
      have := wf_step env e b (reachable_wf hreach)
      rwa [h1] at this
    have hwf2 : CacheWF env s2 := wf_evolve hev hwf1
    have hwf3 : CacheWF env s3 := by
      have := wf_step env e' b' hwf2
      rwa [h2] at this
    have hlk2' : lookupA s3.entries (e', b') = some c' := get_ok_lookup h2
    have hlk3 : lookupA s3.entries (e, b) = some c := by
      have := @step_mono env e' b' s2 (e, b) c hlk2
      rwa [h2] at this
    exact wf_distinct hwf3 hlk3 hlk2' hkeys hcc

/-- Claim C5 witness: from the empty pool, the default key builds client
0, remains cached, and a repeated call returns the same client 0. -/
theorem claim_C5_witness :
    lookupA cacheAfterDefault.entries (none, false) = some 0 ∧
    (0 : Client) = 0 := by
  have h := claim_C5 buildEnvAllOk emptyCache cacheAfterDefault
    cacheAfterDefault cacheAfterDefault none none false false 0 0
    (Evolves.refl _) rfl (Evolves.refl _) rfl
  exact ⟨h.2.2 (none, false) 0 rfl, h.1 rfl⟩

/-- Claim C8: from any reachable pool state, a request whose emulation
profile does not resolve fails with `invalid_request` and message
"unknown emulation profile" (the profile name echoed in the details),
and no client is built — the pool state is unchanged. -/
theorem claim_C8 (env : NetEnv) (req : NativeRequest)
    (body : Option (List Nat)) (st : CacheState) (p : RStr)
    (hreach : Reachable env.build st)
    (hprof : req.emulation = some p)
    (hunknown : env.build.knownProfile p = false) :
    execute_request env req body st =
      (.error (unknownProfileErr env.build p), st) := by
  have hwf := reachable_wf hreach
  have hnone := wf_unknown_none hwf hunknown req.insecure_skip_verify
  have hget : get_or_build_client env.build req.emulation
      req.insecure_skip_verify st =
      (.error (unknownProfileErr env.build p), st) := by
    rw [hprof]
    simp only [get_or_build_client]
    rw [hnone]
    simp [hunknown]
  simp only [execute_request]
  rw [hget]

/-- Claim C8 witness: the profile `unknown_browser` in an environment
where no profile resolves yields the unknown-profile error from the
empty pool, leaving the pool empty. -/
theorem claim_C8_witness :
    execute_request netEnvNoProfiles
      (sampleRequest (chars "GET") (some (chars "unknown_browser"))) none
      emptyCache =
      (.error (unknownProfileErr buildEnvNoProfiles (chars "unknown_browser")),
        emptyCache) :=
  claim_C8 netEnvNoProfiles
    (sampleRequest (chars "GET") (some (chars "unknown_browser"))) none
    emptyCache (chars "unknown_browser") (Evolves.refl _) rfl rfl

/-- Claim C9 (amended): when client resolution succeeds, a request whose
method is not a valid HTTP token fails with `invalid_request`, message
"invalid HTTP method", and the offending method echoed in the details,
leaving the pool as client resolution left it. -/
theorem claim_C9 (env : NetEnv) (req : NativeRequest)
    (body : Option (List Nat)) (st st' : CacheState) (c : Client)
    (hclient : get_or_build_client env.build req.emulation
      req.insecure_skip_verify st = (.ok c, st'))
    (hmeth : isMethodToken req.method = false) :
    execute_request env req body st =
      (.error (invalidMethodErr env req.method), st') := by
  simp only [execute_request]
  rw [hclient]
  simp [hmeth]

/-- Claim C9 witness: method `BAD METHOD` with no emulation profile
fails with the invalid-method error after the default client is built. -/
theorem claim_C9_witness :
    execute_request netEnvAllOk (sampleRequest (chars "BAD METHOD") none)
      none emptyCache =
      (.error (invalidMethodErr netEnvAllOk (chars "BAD METHOD")),
        cacheAfterDefault) :=
  claim_C9 netEnvAllOk (sampleRequest (chars "BAD METHOD") none) none
    emptyCache cacheAfterDefault 0 rfl (by decide)

/-- Claim C9 counterexample: a request whose method is invalid but whose
emulation profile is also unknown fails with the unknown-profile
message, not "invalid HTTP method" — client resolution runs first. -/
theorem claim_C9_counterexample :
    isMethodToken (chars "BAD METHOD") = false ∧
    execute_request netEnvNoProfiles
      (sampleRequest (chars "BAD METHOD") (some (chars "unknown_browser")))
      none emptyCache =
      (.error (unknownProfileErr buildEnvNoProfiles (chars "unknown_browser")),
        emptyCache) ∧
    (unknownProfileErr buildEnvNoProfiles (chars "unknown_browser")).message ≠
      chars "invalid HTTP method" :=
  ⟨by decide, rfl, by decide⟩

/-- Claim C7 witness: on `..Example.com` the normalization equals the
lower-cased string with its two leading dots dropped. -/
theorem claim_C7_witness :
    normalize_domain (chars "..Example.com") =
      toLowerStr ((chars "..Example.com").drop
        (countLeadingDots (chars "..Example.com"))) :=
  (claim_C7 (chars "..Example.com")).1
